import Mathlib

/-!
Verification development for the amortization calculator core
(src/lib/utils/amortization.ts).

Embedding conventions:
- JavaScript floating-point numbers are idealized as exact rationals.
- JavaScript Date values are modeled at day granularity (the source always
  truncates times with setHours(0,0,0,0) before comparing) as a
  year/month/day triple, with month 0-based as in JavaScript.
- Date.prototype.setMonth is modeled faithfully: setting a month keeps the
  day-of-month and then normalizes, so an out-of-range day overflows into
  the following month (e.g. Jan 31 with month set to February becomes
  March 2 or 3), exactly as JavaScript normalizes via the time value.
- Math.round is round-half-toward-positive-infinity, i.e. floor (x + 1/2),
  which is exactly the JavaScript semantics for all inputs.
-/

namespace Amortization

/-- A calendar date at day granularity. The month is 0-based (0 = January)
to match the JavaScript Date API used by the source. -/
structure SimpleDate where
  year : Int
  month : Nat
  day : Nat
deriving DecidableEq, Repr

/-- Gregorian leap-year test, as implemented by the JavaScript Date object. -/
def isLeapYear (y : Int) : Bool :=
  y % 4 == 0 && (y % 100 != 0 || y % 400 == 0)

/-- Number of days in a (0-based) month of a given year. -/
def daysInMonth (y : Int) (m : Nat) : Nat :=
  match m with
  | 0 => 31
  | 1 => if isLeapYear y then 29 else 28
  | 2 => 31
  | 3 => 30
  | 4 => 31
  | 5 => 30
  | 6 => 31
  | 7 => 31
  | 8 => 30
  | 9 => 31
  | 10 => 30
  | _ => 31

/-- Normalization performed by the JavaScript Date object after setMonth:
a month index of 12 or more carries into the year, and a day beyond the
length of the resulting month overflows into the following month. Because
the day of an existing date is at most 31 and every month has at least 28
days, at most one month of overflow can occur. -/
def normalizeDate (y : Int) (m : Nat) (d : Nat) : SimpleDate :=
  let y1 : Int := y + (m / 12 : Nat)
  let m1 : Nat := m % 12
  if d ≤ daysInMonth y1 m1 then ⟨y1, m1, d⟩
  else if m1 = 11 then ⟨y1 + 1, 0, d - daysInMonth y1 m1⟩
  else ⟨y1, m1 + 1, d - daysInMonth y1 m1⟩

/-- date.setMonth(date.getMonth() + k): advance a date by k calendar months
with JavaScript overflow semantics. -/
def addMonthsJS (d : SimpleDate) (k : Nat) : SimpleDate :=
  normalizeDate d.year (d.month + k) d.day

/-- Injective, order-preserving key for day-granularity dates; models
comparison of Date time values for day-truncated dates. -/
def dateKey (d : SimpleDate) : Int :=
  (d.year * 12 + (d.month : Int)) * 32 + (d.day : Int)

/-- JavaScript Math.round: round half toward positive infinity. -/
def jsRound (q : ℚ) : Int :=
  ⌊q + 1/2⌋

/-- Math.round(x * 100) / 100, the rounding to cents used by the source. -/
def round2 (q : ℚ) : ℚ :=
  (jsRound (q * 100) : ℚ) / 100

/-- One ledger entry of a schedule (type PaymentSchedule of the source).
The month is absent on extra-principal event records. -/
structure PaymentSchedule where
  month : Option Nat
  date : SimpleDate
  payment : ℚ
  interest : ℚ
  principal : ℚ
  remainingBalance : ℚ
deriving DecidableEq, Repr

/-- Placeholder record used to give List.getD a default; every access in
the algorithm is at an index the pivot search proved in range. -/
def dummyRecord : PaymentSchedule :=
  ⟨none, ⟨0, 0, 1⟩, 0, 0, 0, 0⟩

/-- The two update policies of the source. -/
inductive UpdateType where
  | retainTerm
  | retainPayment
deriving DecidableEq, Repr

/-- A loan update (type LoanUpdate of the source). The caller-assigned id
is an opaque value never read by the algorithm; it is modeled as a number. -/
structure LoanUpdate where
  id : Nat
  principalPayment : ℚ
  newInterestRate : ℚ
  date : SimpleDate
  updateType : UpdateType
deriving DecidableEq, Repr

/-- calculateMonthlyPayment of the source. Math.pow is evaluated at a real
exponent in JavaScript; every call site of the program passes a
non-negative whole number of months, where the natural-number power below
agrees with it, so the exponent is taken as the floor of the month count. -/
def calculateMonthlyPayment (loanAmount annualInterestRate termInYears : ℚ) : ℚ :=
  let totalMonths := termInYears * 12
  let monthlyRate := annualInterestRate / 12 / 100
  if monthlyRate = 0 then
    loanAmount / totalMonths
  else
    let factor := (1 + monthlyRate) ^ totalMonths.floor.toNat
    loanAmount * (monthlyRate * factor) / (factor - 1)

/-- The months-to-payoff count computed by calculateRemainingMonths in its
final branch: Math.ceil (-log (1 - num) / log (1 + r)). Over the reals,
for 0 < r and num < 1 that ceiling is exactly the least natural n with
(1 + r) ^ n * (1 - num) ≥ 1, which is the computable characterization used
here. Outside that region the source never reaches this branch with a
finite positive result; 0 is returned, which the caller treats through the
same fallback as any non-positive count. -/
def monthsToPayoff (r num : ℚ) : Int :=
  if h : 0 < r ∧ num < 1 then
    (Nat.find
      (show ∃ n : Nat, 1 ≤ (1 + r) ^ n * (1 - num) by
        obtain ⟨hr, hnum⟩ := h
        have h1 : (0:ℚ) < 1 - num := by linarith
        obtain ⟨n, hn⟩ := exists_nat_gt ((1 / (1 - num) - 1) / r)
        refine ⟨n, ?_⟩
        have hb : 1 + (n : ℚ) * r ≤ (1 + r) ^ n := by
          have := one_add_mul_le_pow (show (-2:ℚ) ≤ r by linarith) n
          simpa using this
        have hgt : 1 / (1 - num) - 1 < (n : ℚ) * r := by
          have := (div_lt_iff₀ hr).mp hn
          linarith
        have hpow : 1 / (1 - num) ≤ (1 + r) ^ n := by linarith
        calc (1:ℚ) = (1 / (1 - num)) * (1 - num) := by field_simp
          _ ≤ (1 + r) ^ n * (1 - num) := by
              exact mul_le_mul_of_nonneg_right hpow (le_of_lt h1)) : Int)
  else 0

/-- calculateRemainingMonths of the source. Infinity is modeled as none. -/
def calculateRemainingMonths (remainingBalance annualInterestRate monthlyPayment : ℚ) :
    Option Int :=
  let monthlyRate := annualInterestRate / 12 / 100
  if monthlyRate = 0 then
    some ⌈remainingBalance / monthlyPayment⌉
  else if monthlyPayment ≤ remainingBalance * monthlyRate then
    none
  else
    let numerator := remainingBalance * monthlyRate / monthlyPayment
    if 1 ≤ numerator then
      none
    else
      some (monthsToPayoff monthlyRate numerator)

/-- The loop body of calculateAmortizationSchedule: given remaining fuel,
the current 1-based month number and the raw (unrounded) balance carried
from the previous iteration, produce the remaining rows. Each stored field
is rounded to cents, while the balance carried to the next iteration is
the raw value. -/
def scheduleRows (startDate : SimpleDate) (payment monthlyRate : ℚ) :
    Nat → Nat → ℚ → List PaymentSchedule
  | 0, _, _ => []
  | n + 1, month, bal =>
    let interest := bal * monthlyRate
    let principal := payment - interest
    let newBal := max 0 (bal - principal)
    { month := some month
      date := addMonthsJS startDate (month - 1)
      payment := round2 payment
      interest := round2 interest
      principal := round2 principal
      remainingBalance := round2 newBal } ::
      scheduleRows startDate payment monthlyRate n (month + 1) newBal

/-- calculateAmortizationSchedule of the source. The for loop runs once per
whole month in termInYears * 12 (the JavaScript loop bound month ≤
totalMonths admits exactly floor totalMonths iterations for a
non-negative bound). -/
def calculateAmortizationSchedule (loanAmount annualInterestRate termInYears : ℚ)
    (startDate : SimpleDate) : List PaymentSchedule :=
  let totalMonths := (termInYears * 12).floor.toNat
  let monthlyRate := annualInterestRate / 12 / 100
  let payment := calculateMonthlyPayment loanAmount annualInterestRate termInYears
  scheduleRows startDate payment monthlyRate totalMonths 1 loanAmount

/-- The raw balance recursion of the generator loop: the balance after n
iterations, carried at full precision exactly as the source carries its
remainingBalance variable across iterations. -/
def rawBalance (payment monthlyRate bal : ℚ) : Nat → ℚ
  | 0 => bal
  | n + 1 =>
    max 0 (rawBalance payment monthlyRate bal n -
      (payment - rawBalance payment monthlyRate bal n * monthlyRate))

/-- Modelled from the spec for comparison with the source (claim C2): the
same generator loop, except that the balance carried forward into the next
iteration is the rounded stored value instead of the raw one. -/
def scheduleRowsRoundedCarry (startDate : SimpleDate) (payment monthlyRate : ℚ) :
    Nat → Nat → ℚ → List PaymentSchedule
  | 0, _, _ => []
  | n + 1, month, bal =>
    let interest := bal * monthlyRate
    let principal := payment - interest
    let newBal := max 0 (bal - principal)
    { month := some month
      date := addMonthsJS startDate (month - 1)
      payment := round2 payment
      interest := round2 interest
      principal := round2 principal
      remainingBalance := round2 newBal } ::
      scheduleRowsRoundedCarry startDate payment monthlyRate n (month + 1) (round2 newBal)

/-- Modelled from the spec for comparison with the source (claim C2):
calculateAmortizationSchedule with rounded balances carried forward. -/
def calculateAmortizationScheduleRoundedCarry (loanAmount annualInterestRate termInYears : ℚ)
    (startDate : SimpleDate) : List PaymentSchedule :=
  let totalMonths := (termInYears * 12).floor.toNat
  let monthlyRate := annualInterestRate / 12 / 100
  let payment := calculateMonthlyPayment loanAmount annualInterestRate termInYears
  scheduleRowsRoundedCarry startDate payment monthlyRate totalMonths 1 loanAmount

/-- The body of the forward regeneration loop of
recalculateScheduleWithUpdates (source lines 338-360). The loop counter of
the source runs while month < remainingMonths and the carried balance
exceeds 0.01; here the remaining iteration budget and the 0-based month
offset are passed separately. Stored fields are rounded to cents; the
balance carried to the next iteration is the raw value. -/
def forwardLoop (pay monthlyRate : ℚ) (startDate : SimpleDate) (nextMonthNumber : Nat) :
    Nat → Nat → ℚ → List PaymentSchedule
  | 0, _, _ => []
  | fuel + 1, m, bal =>
    if 1/100 < bal then
      let interest := bal * monthlyRate
      let principal := pay - interest
      let actualPrincipal := min principal bal
      let newBal := max 0 (bal - actualPrincipal)
      let totalPayment := actualPrincipal + interest
      { month := some (nextMonthNumber + m)
        date := addMonthsJS startDate m
        payment := round2 totalPayment
        interest := round2 interest
        principal := round2 actualPrincipal
        remainingBalance := round2 newBal } ::
        forwardLoop pay monthlyRate startDate nextMonthNumber fuel (m + 1) newBal
    else []

/-- The retain-payment branch of recalculateScheduleWithUpdates (source
lines 254-272): keep the payment amount and solve for the remaining month
count; if that count is infinite (none) or non-positive, fall back to the
record count of the current schedule minus the pivot index minus one, and
recompute the payment over that fallback term. Returns the forward payment
amount and the remaining month count. -/
def retainPaymentPlan (balanceAfterExtra rate currentPaymentAmount : ℚ)
    (scheduleLength updateIndex : Nat) : ℚ × Int :=
  match calculateRemainingMonths balanceAfterExtra rate currentPaymentAmount with
  | some m =>
    if m ≤ 0 then
      let fallback : Int := (scheduleLength : Int) - (updateIndex : Int) - 1
      (calculateMonthlyPayment balanceAfterExtra rate ((fallback : ℚ) / 12), fallback)
    else
      (currentPaymentAmount, m)
  | none =>
    let fallback : Int := (scheduleLength : Int) - (updateIndex : Int) - 1
    (calculateMonthlyPayment balanceAfterExtra rate ((fallback : ℚ) / 12), fallback)

/-- The retain-term branch of recalculateScheduleWithUpdates (source lines
222-253): elapsed months are taken as the pivot index (the count of records
strictly before the pivot in the current schedule), the remaining term is
the original term minus elapsed months over twelve, the payment is
recomputed over that remaining term, and the remaining month count is the
ceiling of the remaining term in months. -/
def retainTermPlan (balanceAfterExtra rate : ℚ) (originalLoanTermInYears : ℚ)
    (updateIndex : Nat) : ℚ × Int :=
  let elapsedMonths := updateIndex
  let remainingTermInYears := originalLoanTermInYears - (elapsedMonths : ℚ) / 12
  (calculateMonthlyPayment balanceAfterExtra rate remainingTermInYears,
    ⌈remainingTermInYears * 12⌉)

/-- The body of one iteration of the update loop of
recalculateScheduleWithUpdates (source lines 137-362), given the pivot
index found by the search of lines 121-135. The source threads a
currentInterestRate variable across iterations, but assigns it from the
update before every read (line 145 precedes line 149), so the loop state
reduces to the schedule. The source checks
updateIndex < currentSchedule.length three times after the pivot search;
those checks are kept even though a successful pivot search guarantees
them. -/
def applyUpdateAt (originalLoanAmount originalLoanTermInYears : ℚ)
    (currentSchedule : List PaymentSchedule) (u : LoanUpdate)
    (updateIndex : Nat) : List PaymentSchedule :=
    let balanceBeforeUpdate :=
      if updateIndex = 0 then originalLoanAmount
      else (currentSchedule.getD (updateIndex - 1) dummyRecord).remainingBalance
    let currentPayment := currentSchedule.getD updateIndex dummyRecord
    let monthlyRate := u.newInterestRate / 12 / 100
    let interest := balanceBeforeUpdate * monthlyRate
    let regularPrincipal := currentPayment.payment - interest
    let balanceAfterRegularPayment := max 0 (balanceBeforeUpdate - regularPrincipal)
    let keptRows := currentSchedule.take updateIndex
    let firstPart : List PaymentSchedule × ℚ :=
      if updateIndex < currentSchedule.length then
        if dateKey currentPayment.date ≤ dateKey u.date then
          ([{ month := some (updateIndex + 1)
              date := currentPayment.date
              payment := round2 currentPayment.payment
              interest := round2 interest
              principal := round2 regularPrincipal
              remainingBalance := round2 balanceAfterRegularPayment }],
            balanceAfterRegularPayment)
        else ([], balanceBeforeUpdate)
      else ([], balanceBeforeUpdate)
    let lastPaymentBalance := firstPart.2
    let extraPaymentRemainingBalance := max 0 (lastPaymentBalance - u.principalPayment)
    let extraRecord : PaymentSchedule :=
      { month := none
        date := u.date
        payment := round2 u.principalPayment
        interest := 0
        principal := round2 u.principalPayment
        remainingBalance := round2 extraPaymentRemainingBalance }
    let plan : ℚ × Int :=
      if u.updateType = UpdateType.retainTerm then
        retainTermPlan extraPaymentRemainingBalance u.newInterestRate
          originalLoanTermInYears updateIndex
      else
        retainPaymentPlan extraPaymentRemainingBalance u.newInterestRate
          currentPayment.payment currentSchedule.length updateIndex
    let newMonthlyPayment := plan.1
    let remainingMonths := plan.2
    let laterPart : List PaymentSchedule × ℚ :=
      if updateIndex < currentSchedule.length then
        if dateKey u.date < dateKey currentPayment.date then
          let newBalanceBeforeRegular := extraPaymentRemainingBalance
          let newInterest := newBalanceBeforeRegular * monthlyRate
          let newRegularPrincipal := newMonthlyPayment - newInterest
          let newBalanceAfterRegular := max 0 (newBalanceBeforeRegular - newRegularPrincipal)
          ([{ month := some (updateIndex + 1)
              date := currentPayment.date
              payment := round2 newMonthlyPayment
              interest := round2 newInterest
              principal := round2 newRegularPrincipal
              remainingBalance := round2 newBalanceAfterRegular }],
            newBalanceAfterRegular)
        else ([], extraPaymentRemainingBalance)
      else ([], extraPaymentRemainingBalance)
    let finalBalanceAfterBothPayments := laterPart.2
    let lastPaymentDate :=
      if updateIndex < currentSchedule.length then
        if dateKey u.date < dateKey currentPayment.date then currentPayment.date else u.date
      else u.date
    let startDate := addMonthsJS lastPaymentDate 1
    let nextMonthNumber :=
      if updateIndex < currentSchedule.length then updateIndex + 2 else updateIndex + 1
    keptRows ++ firstPart.1 ++ [extraRecord] ++ laterPart.1 ++
      forwardLoop newMonthlyPayment monthlyRate startDate nextMonthNumber
        remainingMonths.toNat 0 finalBalanceAfterBothPayments

/-- One iteration of the update loop: locate the pivot (the first record
dated on or after the update date, source lines 121-135); when none
exists the update is skipped, otherwise the schedule is rebuilt by
applyUpdateAt. -/
def applyUpdate (originalLoanAmount originalLoanTermInYears : ℚ)
    (currentSchedule : List PaymentSchedule) (u : LoanUpdate) : List PaymentSchedule :=
  match currentSchedule.findIdx? (fun r => decide (dateKey u.date ≤ dateKey r.date)) with
  | none => currentSchedule
  | some updateIndex =>
    applyUpdateAt originalLoanAmount originalLoanTermInYears currentSchedule u updateIndex

/-- Ascending-date order on updates, as used by the stable sort of the
source (line 110). -/
def updateDateLE (a b : LoanUpdate) : Prop :=
  dateKey a.date ≤ dateKey b.date

instance : DecidableRel updateDateLE := fun a b => by
  unfold updateDateLE; infer_instance

/-- The order of the final sort of the source (lines 367-374): ascending
date; on equal dates a record carrying a month number precedes one
without. This is the non-strict order induced by the comparator; the
source sort is stable, so a stable sort with respect to this order models
it exactly. -/
def finalSortLE (a b : PaymentSchedule) : Prop :=
  dateKey a.date < dateKey b.date ∨
    (dateKey a.date = dateKey b.date ∧ (a.month.isSome ∨ b.month = none))

instance : DecidableRel finalSortLE := fun a b => by
  unfold finalSortLE; infer_instance

/-- recalculateScheduleWithUpdates of the source. The JavaScript
Array.prototype.sort is stable, and insertion sort is stable for a total
preorder, so both sorts are modeled by insertion sort. The
originalInterestRate parameter is accepted and, as in the source, never
read: the loop variable it seeds is overwritten before every read. -/
def recalculateScheduleWithUpdates (originalSchedule : List PaymentSchedule)
    (loanUpdates : List LoanUpdate) (originalInterestRate : ℚ)
    (originalLoanAmount originalLoanTermInYears : ℚ) : List PaymentSchedule :=
  if loanUpdates = [] then
    originalSchedule
  else
    let sortedUpdates := List.insertionSort updateDateLE loanUpdates
    let finalSchedule := sortedUpdates.foldl
      (fun sched u => applyUpdate originalLoanAmount originalLoanTermInYears sched u)
      originalSchedule
    List.insertionSort finalSortLE finalSchedule

/-- The recomputed regular payment record that applyUpdateAt emits at the
pivot position when the pivot date is on or before the update date
(source lines 180-187): the month number is the pivot position plus one,
the date and payment amount are the pivot's, and the interest and
principal split is taken against the new rate. -/
def pivotRegularRecord (P : ℚ) (sched : List PaymentSchedule) (u : LoanUpdate)
    (i : Nat) : PaymentSchedule :=
  let balBefore := if i = 0 then P else (sched.getD (i - 1) dummyRecord).remainingBalance
  let interest := balBefore * (u.newInterestRate / 12 / 100)
  let principal := (sched.getD i dummyRecord).payment - interest
  { month := some (i + 1)
    date := (sched.getD i dummyRecord).date
    payment := round2 (sched.getD i dummyRecord).payment
    interest := round2 interest
    principal := round2 principal
    remainingBalance := round2 (max 0 (balBefore - principal)) }

/-- The extra-principal event record that applyUpdateAt emits directly
after the regular record in the same situation (source lines 206-212):
no month number, dated at the update date, with the balance floored at
zero after subtracting the extra principal. -/
def pivotExtraRecord (P : ℚ) (sched : List PaymentSchedule) (u : LoanUpdate)
    (i : Nat) : PaymentSchedule :=
  let balBefore := if i = 0 then P else (sched.getD (i - 1) dummyRecord).remainingBalance
  let interest := balBefore * (u.newInterestRate / 12 / 100)
  let principal := (sched.getD i dummyRecord).payment - interest
  { month := none
    date := u.date
    payment := round2 u.principalPayment
    interest := 0
    principal := round2 u.principalPayment
    remainingBalance := round2 (max 0 (max 0 (balBefore - principal) - u.principalPayment)) }

/-- The invariant claimed of a schedule: the stored remaining balances
never increase from one record to the next in output order. -/
def balanceNonIncreasing (l : List PaymentSchedule) : Prop :=
  List.Chain' (fun a b => b.remainingBalance ≤ a.remainingBalance) l

/-! Concrete scenarios used by counterexamples and witnesses. -/

/-- The base schedule of Scenario A of the spec: 100000 at 5 percent over
30 years starting 2024-01-01. -/
def scenarioABase : List PaymentSchedule :=
  calculateAmortizationSchedule 100000 5 30 ⟨2024, 0, 1⟩

/-- The Scenario C update: retain-term, 10000 principal, new rate 4.5
percent, effective at the date of month 12 of the base schedule. -/
def scenarioCUpdate : LoanUpdate :=
  ⟨1, 10000, 45/10, ⟨2024, 11, 1⟩, UpdateType.retainTerm⟩

/-- The Scenario C result. -/
def scenarioCResult : List PaymentSchedule :=
  recalculateScheduleWithUpdates scenarioABase [scenarioCUpdate] 5 100000 30

/-- A small zero-rate base loan: 1200 over one year starting 2024-01-01,
twelve payments of 100. -/
def smallBase : List PaymentSchedule :=
  calculateAmortizationSchedule 1200 0 1 ⟨2024, 0, 1⟩

/-- Retain-payment update of 50 at 2024-03-01 on the small loan, keeping
rate 0. Its pivot is month 3; it inserts a monthless extra record after
month 3. -/
def marchUpdate : LoanUpdate :=
  ⟨1, 50, 0, ⟨2024, 2, 1⟩, UpdateType.retainPayment⟩

/-- Second retain-payment update of 20 at 2024-06-01 on the small loan.
After marchUpdate the record carrying month 6 sits at index 6 of the
current schedule, behind the inserted extra record. -/
def juneUpdate : LoanUpdate :=
  ⟨2, 20, 0, ⟨2024, 5, 1⟩, UpdateType.retainPayment⟩

/-- Retain-payment update at 2024-02-01 on the small loan raising the rate
to 120 percent: the monthly interest (110) then exceeds the retained
payment (100). -/
def rateJumpUpdate : LoanUpdate :=
  ⟨1, 10, 120, ⟨2024, 1, 1⟩, UpdateType.retainPayment⟩

/-- Retain-payment update of 25 at 2024-06-01 on the small loan raising
the rate to 600 percent, forcing the unsolvable-term fallback on a
schedule already holding an extra record from marchUpdate. -/
def juneRateUpdate : LoanUpdate :=
  ⟨2, 25, 600, ⟨2024, 5, 1⟩, UpdateType.retainPayment⟩

/-! Proof development. The core arithmetic of Rat is sealed by default;
witness and counterexample evaluations unfold it. -/

attribute [local semireducible] Rat.mul Rat.add Rat.sub Rat.inv

set_option maxRecDepth 4000000

/-! Basic lemmas about rounding and the generator loop. -/

theorem round2_mono {a b : ℚ} (h : a ≤ b) : round2 a ≤ round2 b := by
  unfold round2 jsRound
  have h1 : ⌊a * 100 + 1/2⌋ ≤ ⌊b * 100 + 1/2⌋ := Int.floor_le_floor (by linarith)
  have h2 : ((⌊a * 100 + 1/2⌋ : ℤ) : ℚ) ≤ ((⌊b * 100 + 1/2⌋ : ℤ) : ℚ) := by exact_mod_cast h1
  linarith

theorem round2_nonneg {a : ℚ} (h : 0 ≤ a) : 0 ≤ round2 a := by
  unfold round2 jsRound
  have h1 : (0 : ℤ) ≤ ⌊a * 100 + 1/2⌋ := Int.le_floor.mpr (by push_cast; linarith)
  have h2 : (0 : ℚ) ≤ ((⌊a * 100 + 1/2⌋ : ℤ) : ℚ) := by exact_mod_cast h1
  linarith

theorem round2_zero : round2 0 = 0 := by
  unfold round2 jsRound
  norm_num

theorem rawBalance_shift (payment monthlyRate bal : ℚ) (n : Nat) :
    rawBalance payment monthlyRate (max 0 (bal - (payment - bal * monthlyRate))) n
      = rawBalance payment monthlyRate bal (n + 1) := by
  induction n with
  | zero => rfl
  | succ k ih =>
    conv_lhs => rw [rawBalance]
    conv_rhs => rw [rawBalance]
    rw [ih]

theorem scheduleRows_length (s : SimpleDate) (pay r : ℚ) (n m : Nat) (bal : ℚ) :
    (scheduleRows s pay r n m bal).length = n := by
  induction n generalizing m bal with
  | zero => rfl
  | succ k ih => simp [scheduleRows, ih]

theorem scheduleRows_get (s : SimpleDate) (pay r : ℚ) :
    ∀ (i n m : Nat) (bal : ℚ) (h : i < (scheduleRows s pay r n m bal).length),
      (scheduleRows s pay r n m bal).get ⟨i, h⟩ =
        { month := some (m + i)
          date := addMonthsJS s (m + i - 1)
          payment := round2 pay
          interest := round2 (rawBalance pay r bal i * r)
          principal := round2 (pay - rawBalance pay r bal i * r)
          remainingBalance := round2 (rawBalance pay r bal (i + 1)) } := by
  intro i
  induction i with
  | zero =>
    intro n m bal h
    match n with
    | 0 => simp [scheduleRows_length] at h
    | k + 1 => simp [scheduleRows, rawBalance]
  | succ j ih =>
    intro n m bal h
    match n with
    | 0 => simp [scheduleRows_length] at h
    | k + 1 =>
      have h2 : j < (scheduleRows s pay r k (m + 1)
          (max 0 (bal - (pay - bal * r)))).length := by
        rw [scheduleRows_length]
        rw [scheduleRows_length] at h
        omega
      have step := ih k (m + 1) (max 0 (bal - (pay - bal * r))) h2
      rw [rawBalance_shift] at step
      have hshift : rawBalance pay r (max 0 (bal - (pay - bal * r))) (j + 1)
          = rawBalance pay r bal (j + 2) := rawBalance_shift pay r bal (j + 1)
      rw [hshift] at step
      show (scheduleRows s pay r (k + 1) m bal).get ⟨j + 1, h⟩ = _
      simp only [scheduleRows, List.get_cons_succ]
      rw [step]
      have e1 : m + 1 + j = m + (j + 1) := by omega
      rw [e1]

theorem calculateAmortizationSchedule_length (P rate t : ℚ) (s : SimpleDate) :
    (calculateAmortizationSchedule P rate t s).length = (t * 12).floor.toNat :=
  scheduleRows_length ..

theorem calculateAmortizationSchedule_get (P rate t : ℚ) (s : SimpleDate) (i : Nat)
    (h : i < (calculateAmortizationSchedule P rate t s).length) :
    (calculateAmortizationSchedule P rate t s).get ⟨i, h⟩ =
      { month := some (1 + i)
        date := addMonthsJS s i
        payment := round2 (calculateMonthlyPayment P rate t)
        interest := round2 (rawBalance (calculateMonthlyPayment P rate t)
          (rate / 12 / 100) P i * (rate / 12 / 100))
        principal := round2 (calculateMonthlyPayment P rate t -
          rawBalance (calculateMonthlyPayment P rate t) (rate / 12 / 100) P i *
            (rate / 12 / 100))
        remainingBalance := round2 (rawBalance (calculateMonthlyPayment P rate t)
          (rate / 12 / 100) P (i + 1)) } := by
  have hlen : i < (scheduleRows s (calculateMonthlyPayment P rate t) (rate / 12 / 100)
      ((t * 12).floor.toNat) 1 P).length := h
  have step := scheduleRows_get s (calculateMonthlyPayment P rate t) (rate / 12 / 100)
    i ((t * 12).floor.toNat) 1 P hlen
  have e1 : 1 + i - 1 = i := by omega
  rw [e1] at step
  exact step

/-- C6: recalculate called with an empty update list returns the base
schedule unchanged, for every schedule and parameter values. -/
theorem claim_C6 (originalSchedule : List PaymentSchedule)
    (originalInterestRate originalLoanAmount originalLoanTermInYears : ℚ) :
    recalculateScheduleWithUpdates originalSchedule [] originalInterestRate
      originalLoanAmount originalLoanTermInYears = originalSchedule := by
  rfl

/-- C3 counterexample: for the schedule starting 2024-01-31, the second
payment is dated March 2, 2024 (the day overflows past the 29 days of
February 2024), not the last day of February as the claim states. -/
theorem claim_C3_counterexample :
    ((calculateAmortizationSchedule 1200 0 1 ⟨2024, 0, 31⟩).getD 1 dummyRecord).date
        = ⟨2024, 2, 2⟩ ∧
      ((calculateAmortizationSchedule 1200 0 1 ⟨2024, 0, 31⟩).getD 1 dummyRecord).date
        ≠ ⟨2024, 1, 29⟩ := by
  constructor
  · decide
  · decide

/-- C3 amended: the record at index i is dated the start date advanced by
i whole calendar months, with the day of month preserved when the target
month has that many days and otherwise the excess days overflowing into
the start of the following month (JavaScript Date normalization), not
clamped to the last day of the target month. -/
theorem claim_C3_amended (P rate t : ℚ) (s : SimpleDate) (i : Nat)
    (h : i < (calculateAmortizationSchedule P rate t s).length) :
    ((calculateAmortizationSchedule P rate t s).get ⟨i, h⟩).date =
      (let ty : Int := s.year + ((s.month + i) / 12 : Nat)
       let tm : Nat := (s.month + i) % 12
       if s.day ≤ daysInMonth ty tm then ⟨ty, tm, s.day⟩
       else if tm = 11 then ⟨ty + 1, 0, s.day - daysInMonth ty tm⟩
       else ⟨ty, tm + 1, s.day - daysInMonth ty tm⟩) := by
  rw [calculateAmortizationSchedule_get]
  rfl

/-! Closed form for the generator balance and claim C1. -/

theorem ratFloor_eq_intFloor (q : ℚ) : q.floor = ⌊q⌋ :=
  (Rat.floor_def' q).trans Rat.floor_def.symm

theorem floor_natMul12 (t : Nat) : (((t : ℚ)) * 12).floor.toNat = t * 12 := by
  have e : ((t : ℚ) * 12) = ((t * 12 : Nat) : ℚ) := by push_cast; ring
  rw [e, ratFloor_eq_intFloor]
  rw [Int.floor_natCast]
  exact Int.toNat_natCast _

theorem pow_big_of_pos {r : ℚ} (hr : 0 < r) {N : Nat} (hN : 0 < N) :
    1 < (1 + r) ^ N := by
  have hNq : (1 : ℚ) ≤ (N : ℚ) := by exact_mod_cast hN
  have h1 : 1 + (N : ℚ) * r ≤ (1 + r) ^ N := by
    have := one_add_mul_le_pow (show (-2 : ℚ) ≤ r by linarith) N
    simpa using this
  nlinarith

theorem rawBalance_closed_pos (P r : ℚ) (N : Nat) (hP : 0 ≤ P) (hr : 0 < r)
    (hN : 0 < N) :
    ∀ n : Nat, n ≤ N →
      rawBalance (P * (r * (1 + r) ^ N) / ((1 + r) ^ N - 1)) r P n
        = P * ((1 + r) ^ N - (1 + r) ^ n) / ((1 + r) ^ N - 1) := by
  have hf1 : (1 : ℚ) ≤ 1 + r := by linarith
  have hD : (0 : ℚ) < (1 + r) ^ N - 1 := by
    have := pow_big_of_pos hr hN
    linarith
  intro n
  induction n with
  | zero =>
    intro _
    show P = _
    rw [pow_zero]
    field_simp
  | succ k ih =>
    intro hkN
    have hclosed := ih (by omega)
    conv_lhs => rw [rawBalance]
    rw [hclosed]
    have harith : P * ((1 + r) ^ N - (1 + r) ^ k) / ((1 + r) ^ N - 1) -
        (P * (r * (1 + r) ^ N) / ((1 + r) ^ N - 1) -
          P * ((1 + r) ^ N - (1 + r) ^ k) / ((1 + r) ^ N - 1) * r)
        = P * ((1 + r) ^ N - (1 + r) ^ (k + 1)) / ((1 + r) ^ N - 1) := by
      field_simp
      ring
    rw [harith]
    apply max_eq_right
    have hpow : (1 + r) ^ (k + 1) ≤ (1 + r) ^ N := pow_le_pow_right₀ hf1 hkN
    exact div_nonneg (mul_nonneg hP (by linarith)) (le_of_lt hD)

theorem rawBalance_closed_zero (P : ℚ) (N : Nat) (hP : 0 ≤ P) (hN : 0 < N) :
    ∀ n : Nat, n ≤ N →
      rawBalance (P / (N : ℚ)) 0 P n = P - (n : ℚ) * (P / (N : ℚ)) := by
  have hN0 : (0 : ℚ) < (N : ℚ) := by exact_mod_cast hN
  intro n
  induction n with
  | zero =>
    intro _
    simp [rawBalance]
  | succ k ih =>
    intro hkN
    conv_lhs => rw [rawBalance]
    rw [ih (by omega)]
    have harith : P - (k : ℚ) * (P / (N : ℚ)) -
        (P / (N : ℚ) - (P - (k : ℚ) * (P / (N : ℚ))) * 0)
        = P - ((k : ℚ) + 1) * (P / (N : ℚ)) := by ring
    rw [harith]
    have hcast : (((k + 1 : Nat)) : ℚ) = (k : ℚ) + 1 := by push_cast; ring
    rw [hcast]
    apply max_eq_right
    have hk1 : ((k : ℚ) + 1) ≤ (N : ℚ) := by exact_mod_cast hkN
    have hrepr : P - ((k : ℚ) + 1) * (P / (N : ℚ))
        = P * (((N : ℚ) - ((k : ℚ) + 1)) / (N : ℚ)) := by
      field_simp
      ring
    rw [hrepr]
    exact mul_nonneg hP (div_nonneg (by linarith) (le_of_lt hN0))

/-- The monthly payment of the generator, phrased through the closed forms:
the raw balance reaches exactly 0 after every scheduled month. -/
theorem generator_rawBalance_final (P rate : ℚ) (t : Nat) (hP : 0 ≤ P)
    (hrate : 0 ≤ rate) (ht : 0 < t) :
    rawBalance (calculateMonthlyPayment P rate (t : ℚ)) (rate / 12 / 100) P (t * 12) = 0 := by
  have hN : 0 < t * 12 := by omega
  by_cases hr : rate / 12 / 100 = 0
  · have hpay : calculateMonthlyPayment P rate (t : ℚ) = P / ((t * 12 : Nat) : ℚ) := by
      unfold calculateMonthlyPayment
      rw [if_pos hr]
      push_cast
      ring_nf
    rw [hpay, hr]
    rw [rawBalance_closed_zero P (t * 12) hP hN (t * 12) le_rfl]
    have hN0 : ((t * 12 : Nat) : ℚ) ≠ 0 := by
      have : (0 : ℚ) < ((t * 12 : Nat) : ℚ) := by exact_mod_cast hN
      linarith
    field_simp
  · have hrpos : 0 < rate / 12 / 100 := by
      rcases lt_or_eq_of_le (show (0:ℚ) ≤ rate / 12 / 100 by positivity) with h | h
      · exact h
      · exact absurd h.symm hr
    have hpay : calculateMonthlyPayment P rate (t : ℚ)
        = P * ((rate / 12 / 100) * (1 + rate / 12 / 100) ^ (t * 12)) /
            ((1 + rate / 12 / 100) ^ (t * 12) - 1) := by
      unfold calculateMonthlyPayment
      rw [if_neg hr, floor_natMul12]
    rw [hpay]
    rw [rawBalance_closed_pos P (rate / 12 / 100) (t * 12) hP hrpos hN (t * 12) le_rfl]
    simp

/-- C1: for every valid input, the generator returns exactly t * 12
records, the month fields are 1-based consecutive (hence strictly
increasing from 1 to t * 12), and the stored final remaining balance is
exactly 0. -/
theorem claim_C1 (P rate : ℚ) (t : Nat) (s : SimpleDate)
    (hP : 0 < P) (hrate : 0 ≤ rate) (ht : 0 < t) :
    (calculateAmortizationSchedule P rate (t : ℚ) s).length = t * 12 ∧
    (∀ i (h : i < (calculateAmortizationSchedule P rate (t : ℚ) s).length),
      ((calculateAmortizationSchedule P rate (t : ℚ) s).get ⟨i, h⟩).month = some (i + 1)) ∧
    ((calculateAmortizationSchedule P rate (t : ℚ) s).getLastD dummyRecord).remainingBalance
      = 0 := by
  have hlen : (calculateAmortizationSchedule P rate (t : ℚ) s).length = t * 12 := by
    rw [calculateAmortizationSchedule_length, floor_natMul12]
  refine ⟨hlen, ?_, ?_⟩
  · intro i h
    rw [calculateAmortizationSchedule_get]
    simp [Nat.add_comm]
  · have hne : calculateAmortizationSchedule P rate (t : ℚ) s ≠ [] := by
      intro hcon
      rw [hcon] at hlen
      simp at hlen
      omega
    rw [List.getLastD_eq_getLast? , List.getLast?_eq_getLast _ hne, Option.getD_some]
    rw [List.getLast_eq_getElem]
    have hidx : (calculateAmortizationSchedule P rate (t : ℚ) s).length - 1 <
        (calculateAmortizationSchedule P rate (t : ℚ) s).length := by
      rw [hlen]; omega
    have hget := calculateAmortizationSchedule_get P rate (t : ℚ) s _ hidx
    rw [List.get_eq_getElem] at hget
    rw [hget]
    have e : (calculateAmortizationSchedule P rate (t : ℚ) s).length - 1 + 1 = t * 12 := by
      rw [hlen]; omega
    show round2 (rawBalance (calculateMonthlyPayment P rate (t : ℚ)) (rate / 12 / 100) P
      ((calculateAmortizationSchedule P rate (t : ℚ) s).length - 1 + 1)) = 0
    rw [e, generator_rawBalance_final P rate t (le_of_lt hP) hrate ht, round2_zero]

/-- C1 witness at the concrete input 12000, rate 0, one year. -/
theorem claim_C1_witness :
    0 < (12000 : ℚ) ∧ (0 : ℚ) ≤ 0 ∧ 0 < 1 ∧
    (calculateAmortizationSchedule 12000 0 ((1 : Nat) : ℚ) ⟨2024, 0, 1⟩).length = 1 * 12 ∧
    ((calculateAmortizationSchedule 12000 0 ((1 : Nat) : ℚ)
      ⟨2024, 0, 1⟩).getLastD dummyRecord).remainingBalance = 0 :=
  ⟨by norm_num, le_rfl, by norm_num,
    (claim_C1 12000 0 1 ⟨2024, 0, 1⟩ (by norm_num) le_rfl (by norm_num)).1,
    (claim_C1 12000 0 1 ⟨2024, 0, 1⟩ (by norm_num) le_rfl (by norm_num)).2.2⟩

/-- C2 counterexample: for the loan 10000 at 7 percent over 2 years, the
stored balance of month 2 is 9218.94 under the source (raw carried
balance) but would be 9218.95 if the rounded balance were carried forward
as the claim states; the two generators disagree. -/
theorem claim_C2_counterexample :
    ((calculateAmortizationSchedule 10000 7 2 ⟨2024, 0, 1⟩).getD 1
        dummyRecord).remainingBalance = 460947/50 ∧
      ((calculateAmortizationScheduleRoundedCarry 10000 7 2 ⟨2024, 0, 1⟩).getD 1
        dummyRecord).remainingBalance = 184379/20 ∧
      calculateAmortizationSchedule 10000 7 2 ⟨2024, 0, 1⟩
        ≠ calculateAmortizationScheduleRoundedCarry 10000 7 2 ⟨2024, 0, 1⟩ := by
  refine ⟨by decide, by decide, by decide⟩

/-- C2 amended: every stored monetary field is rounded to 2 decimals at
the point of computation, but the balance carried forward into the next
period is the raw unrounded value, not the rounded one: generator records
are computed from the unrounded rawBalance recursion, and the forward
loop of recalculate carries the raw balance into its next iteration while
storing rounded fields. -/
theorem claim_C2_amended :
    (∀ (P rate t : ℚ) (s : SimpleDate) (i : Nat)
      (h : i < (calculateAmortizationSchedule P rate t s).length),
      (calculateAmortizationSchedule P rate t s).get ⟨i, h⟩ =
        { month := some (1 + i)
          date := addMonthsJS s i
          payment := round2 (calculateMonthlyPayment P rate t)
          interest := round2 (rawBalance (calculateMonthlyPayment P rate t)
            (rate / 12 / 100) P i * (rate / 12 / 100))
          principal := round2 (calculateMonthlyPayment P rate t -
            rawBalance (calculateMonthlyPayment P rate t) (rate / 12 / 100) P i *
              (rate / 12 / 100))
          remainingBalance := round2 (rawBalance (calculateMonthlyPayment P rate t)
            (rate / 12 / 100) P (i + 1)) }) ∧
    (∀ (pay r : ℚ) (d : SimpleDate) (k fuel m : Nat) (bal : ℚ),
      1/100 < bal →
      forwardLoop pay r d k (fuel + 1) m bal =
        { month := some (k + m)
          date := addMonthsJS d m
          payment := round2 (min (pay - bal * r) bal + bal * r)
          interest := round2 (bal * r)
          principal := round2 (min (pay - bal * r) bal)
          remainingBalance := round2 (max 0 (bal - min (pay - bal * r) bal)) } ::
          forwardLoop pay r d k fuel (m + 1) (max 0 (bal - min (pay - bal * r) bal))) := by
  constructor
  · intro P rate t s i h
    exact calculateAmortizationSchedule_get P rate t s i h
  · intro pay r d k fuel m bal hb
    simp only [forwardLoop]
    rw [if_pos hb]

/-- C2 amended witness: month 2 of the 10000 at 7 percent loan carries the
raw balance forward, and one forward-loop step carries its raw balance. -/
theorem claim_C2_amended_witness :
    (calculateAmortizationSchedule 10000 7 2 ⟨2024, 0, 1⟩).get ⟨1, by decide⟩ =
      { month := some 2
        date := ⟨2024, 1, 1⟩
        payment := 44773/100
        interest := 2803/50
        principal := 19583/50
        remainingBalance := 460947/50 } := by
  rw [claim_C2_amended.1 10000 7 2 ⟨2024, 0, 1⟩ 1 (by decide)]
  decide

/-- C3 amended witness: starting 2024-01-31, the second payment date is
March 2, 2024 by the overflow rule. -/
theorem claim_C3_amended_witness :
    ((calculateAmortizationSchedule 1200 0 1 ⟨2024, 0, 31⟩).get ⟨1, by decide⟩).date
      = ⟨2024, 2, 2⟩ := by
  rw [claim_C3_amended 1200 0 1 ⟨2024, 0, 31⟩ 1 (by decide)]
  decide

/-- C4 counterexample: the Scenario C result contains 361 month-numbered
records, not the 360 the claim states. -/
theorem claim_C4_counterexample :
    scenarioCResult.countP (fun r => r.month.isSome) = 361 ∧
      scenarioCResult.countP (fun r => r.month.isSome) ≠ 360 := by
  have h : scenarioCResult.countP (fun r => r.month.isSome) = 361 := by decide
  exact ⟨h, by rw [h]; omega⟩

/-- C4 amended: the Scenario C result holds 361 regular records carrying
the consecutive months 1 through 361 (one month more than the original
360, because the retain-term remaining month count of ceil((30 - 11/12) *
12) = 349 is generated after the 12 retained months), every payment from
month 13 onward equal to 455.05, which is lower than the original payment
536.82 retained through month 12, plus exactly one monthless extra record
dated 2024-12-01, the date of month 12. -/
theorem claim_C4_amended :
    scenarioCResult.filterMap (fun r => r.month) = (List.range 361).map (fun n => n + 1) ∧
    scenarioCResult.all
      (fun r => decide (r.month.getD 0 < 13) || decide (r.payment = 9101/20)) = true ∧
    scenarioCResult.all
      (fun r => decide (r.month.getD 0 = 0) || decide (13 ≤ r.month.getD 0) ||
        decide (r.payment = 26841/50)) = true ∧
    (9101 : ℚ)/20 < 26841/50 ∧
    scenarioCResult.countP (fun r => r.month.isNone) = 1 ∧
    (scenarioCResult.filter (fun r => r.month.isNone)).map (fun r => r.date)
      = [⟨2024, 11, 1⟩] := by
  refine ⟨by decide, by decide, by decide, by norm_num, by decide, by decide⟩

/-! Claim C5: position of the two records emitted at the pivot. -/

theorem getD_two_after {α : Type _} (l1 fwd : List α) (x y d : α) (i : Nat)
    (h : l1.length = i) :
    ((((l1 ++ [x]) ++ [y]) ++ []) ++ fwd).getD i d = x ∧
    ((((l1 ++ [x]) ++ [y]) ++ []) ++ fwd).getD (i + 1) d = y := by
  subst h
  have hshape : (((l1 ++ [x]) ++ [y]) ++ []) ++ fwd = l1 ++ x :: y :: fwd := by
    simp [List.append_assoc]
  rw [hshape]
  constructor
  · rw [List.getD_eq_getElem?_getD, List.getElem?_append_right (Nat.le_refl _)]
    simp
  · rw [List.getD_eq_getElem?_getD,
      List.getElem?_append_right (by omega : l1.length ≤ l1.length + 1)]
    have e : l1.length + 1 - l1.length = 1 := by omega
    rw [e]
    simp

/-- C5 counterexample: on the small loan, after marchUpdate has inserted
a monthless extra record, the pivot of juneUpdate sits at index 6 and
carries month 6, yet the recalculated schedule contains no record with
month 6 at all: the emitted regular record at the June date carries
month 7 (the position-based number), so the pivot's original month
number is not retained. -/
theorem claim_C5_counterexample :
    (applyUpdate 1200 1 smallBase marchUpdate).findIdx?
        (fun r => decide (dateKey juneUpdate.date ≤ dateKey r.date)) = some 6 ∧
      ((applyUpdate 1200 1 smallBase marchUpdate).getD 6 dummyRecord).month = some 6 ∧
      (recalculateScheduleWithUpdates smallBase [marchUpdate, juneUpdate] 0 1200 1).countP
        (fun r => r.month == some 6) = 0 ∧
      ((recalculateScheduleWithUpdates smallBase [marchUpdate, juneUpdate] 0 1200 1).filter
        (fun r => decide (r.date = ⟨2024, 5, 1⟩))).map (fun r => r.month)
        = [some 7, none] := by
  refine ⟨by decide, by decide, by decide, by decide⟩

/-- C5 amended: when the pivot's scheduled date is on or before the
update's effective date, the rebuilt schedule carries at the pivot's
position the recomputed regular payment record whose month number is the
pivot's position in the current schedule plus one (this equals the
pivot's original month number only when no monthless extra record
precedes the pivot), retaining the pivot's payment amount with the
interest split taken against the new rate, followed at the next position
by the extra-principal event record without a month number, dated at the
update's effective date. -/
theorem claim_C5_amended (P years : ℚ) (sched : List PaymentSchedule) (u : LoanUpdate)
    (i : Nat)
    (hfind : sched.findIdx? (fun r => decide (dateKey u.date ≤ dateKey r.date)) = some i)
    (hle : dateKey (sched.getD i dummyRecord).date ≤ dateKey u.date) :
    (applyUpdate P years sched u).getD i dummyRecord = pivotRegularRecord P sched u i ∧
    (applyUpdate P years sched u).getD (i + 1) dummyRecord = pivotExtraRecord P sched u i := by
  obtain ⟨hlen, hp, hmin⟩ := List.findIdx?_eq_some_iff_getElem.mp hfind
  have happ : applyUpdate P years sched u = applyUpdateAt P years sched u i := by
    unfold applyUpdate
    rw [hfind]
  rw [happ]
  have hnlt : ¬ dateKey u.date < dateKey (sched.getD i dummyRecord).date := not_lt.mpr hle
  have htake : (sched.take i).length = i := by
    rw [List.length_take]
    omega
  simp only [applyUpdateAt, pivotRegularRecord, pivotExtraRecord,
    if_pos hle, if_neg hnlt, if_pos hlen]
  exact getD_two_after _ _ _ _ dummyRecord i htake

/-- C5 amended witness at the concrete two-update scenario: the June
pivot (index 6, original month 6) yields a regular record numbered 7
followed by the monthless extra record. -/
theorem claim_C5_amended_witness :
    (applyUpdate 1200 1 (applyUpdate 1200 1 smallBase marchUpdate) juneUpdate).getD 6
        dummyRecord =
      { month := some 7, date := ⟨2024, 5, 1⟩, payment := 100, interest := 0,
        principal := 100, remainingBalance := 550 } ∧
    (applyUpdate 1200 1 (applyUpdate 1200 1 smallBase marchUpdate) juneUpdate).getD 7
        dummyRecord =
      { month := none, date := ⟨2024, 5, 1⟩, payment := 20, interest := 0,
        principal := 20, remainingBalance := 530 } := by
  have h := claim_C5_amended 1200 1 (applyUpdate 1200 1 smallBase marchUpdate) juneUpdate 6
    (by decide) (by decide)
  refine ⟨?_, ?_⟩
  · rw [h.1]
    decide
  · rw [h.2]
    decide

/-! Claim C7: an update dated after the last payment is a silent no-op.
The argument rests on strict monotonicity of the generated payment dates
under the JavaScript month-overflow arithmetic. -/

theorem daysInMonth_bounds (y : Int) (m : Nat) :
    28 ≤ daysInMonth y m ∧ daysInMonth y m ≤ 31 := by
  rcases m with _|_|_|_|_|_|_|_|_|_|_|m <;>
    simp only [daysInMonth] <;>
    first
      | omega
      | (split <;> omega)

theorem dateKey_normalizeDate (y : Int) (m d : Nat) :
    dateKey (normalizeDate y m d) =
      if d ≤ daysInMonth (y + (m / 12 : Nat)) (m % 12) then
        (y * 12 + (m : Int)) * 32 + (d : Int)
      else
        (y * 12 + (m : Int) + 1) * 32 +
          ((d : Int) - (daysInMonth (y + (m / 12 : Nat)) (m % 12) : Int)) := by
  unfold normalizeDate dateKey
  split
  · next hd =>
    rw [if_pos hd]
    simp only
    omega
  · next hd =>
    rw [if_neg hd]
    split <;> (simp only; omega)

theorem dateKey_addMonthsJS_lt (s : SimpleDate) (hd1 : 1 ≤ s.day) (hd31 : s.day ≤ 31)
    (k : Nat) : dateKey (addMonthsJS s k) < dateKey (addMonthsJS s (k + 1)) := by
  unfold addMonthsJS
  rw [dateKey_normalizeDate, dateKey_normalizeDate]
  obtain ⟨h28a, h31a⟩ := daysInMonth_bounds (s.year + ((s.month + k) / 12 : Nat))
    ((s.month + k) % 12)
  obtain ⟨h28b, h31b⟩ := daysInMonth_bounds (s.year + ((s.month + (k + 1)) / 12 : Nat))
    ((s.month + (k + 1)) % 12)
  split <;> split <;> omega

theorem dateKey_addMonthsJS_strictMono (s : SimpleDate) (hd1 : 1 ≤ s.day)
    (hd31 : s.day ≤ 31) : StrictMono (fun k => dateKey (addMonthsJS s k)) :=
  strictMono_nat_of_lt_succ (fun k => dateKey_addMonthsJS_lt s hd1 hd31 k)

theorem generator_sorted (P rate t : ℚ) (s : SimpleDate) (hd1 : 1 ≤ s.day)
    (hd31 : s.day ≤ 31) :
    List.Sorted finalSortLE (calculateAmortizationSchedule P rate t s) := by
  rw [List.Sorted, List.pairwise_iff_getElem]
  intro i j hi hj hij
  have gi := calculateAmortizationSchedule_get P rate t s i hi
  have gj := calculateAmortizationSchedule_get P rate t s j hj
  rw [List.get_eq_getElem] at gi gj
  rw [gi, gj]
  left
  exact dateKey_addMonthsJS_strictMono s hd1 hd31 hij

/-- C7: for a base schedule produced by the generator from a start date
with a real day of month, one update dated strictly after the last
payment date is silently skipped: the recalculation returns the base
schedule unchanged. -/
theorem claim_C7 (P rate : ℚ) (t : Nat) (s : SimpleDate) (u : LoanUpdate)
    (origRate : ℚ) (hd1 : 1 ≤ s.day) (hd31 : s.day ≤ 31) (ht : 0 < t)
    (hafter : dateKey (((calculateAmortizationSchedule P rate (t : ℚ) s).getLastD
      dummyRecord).date) < dateKey u.date) :
    recalculateScheduleWithUpdates (calculateAmortizationSchedule P rate (t : ℚ) s) [u]
      origRate P (t : ℚ) = calculateAmortizationSchedule P rate (t : ℚ) s := by
  have hlen : (calculateAmortizationSchedule P rate (t : ℚ) s).length = t * 12 := by
    rw [calculateAmortizationSchedule_length, floor_natMul12]
  have hpos : 0 < (calculateAmortizationSchedule P rate (t : ℚ) s).length := by omega
  have hne : calculateAmortizationSchedule P rate (t : ℚ) s ≠ [] :=
    List.length_pos.mp hpos
  have hmono := dateKey_addMonthsJS_strictMono s hd1 hd31
  have hlastdate : ((calculateAmortizationSchedule P rate (t : ℚ) s).getLastD
      dummyRecord).date = addMonthsJS s
        ((calculateAmortizationSchedule P rate (t : ℚ) s).length - 1) := by
    rw [List.getLastD_eq_getLast?, List.getLast?_eq_getLast _ hne, Option.getD_some,
      List.getLast_eq_getElem]
    have h1 : (calculateAmortizationSchedule P rate (t : ℚ) s).length - 1 <
        (calculateAmortizationSchedule P rate (t : ℚ) s).length := by omega
    have hg := calculateAmortizationSchedule_get P rate (t : ℚ) s _ h1
    rw [List.get_eq_getElem] at hg
    rw [hg]
  have hall : ∀ x ∈ calculateAmortizationSchedule P rate (t : ℚ) s,
      (fun r => decide (dateKey u.date ≤ dateKey r.date)) x = false := by
    intro x hx
    obtain ⟨⟨i, hi⟩, hxi⟩ := List.mem_iff_get.mp hx
    have gx := calculateAmortizationSchedule_get P rate (t : ℚ) s i hi
    have hxdate : x.date = addMonthsJS s i := by
      rw [← hxi, gx]
    have hle : dateKey (addMonthsJS s i) ≤ dateKey (addMonthsJS s
        ((calculateAmortizationSchedule P rate (t : ℚ) s).length - 1)) :=
      hmono.monotone (by omega)
    have hlt : dateKey x.date < dateKey u.date := by
      rw [hxdate]
      calc dateKey (addMonthsJS s i)
          ≤ dateKey (addMonthsJS s ((calculateAmortizationSchedule P rate (t : ℚ)
              s).length - 1)) := hle
        _ < dateKey u.date := by rw [← hlastdate]; exact hafter
    simp only [decide_eq_false_iff_not, not_le]
    exact hlt
  have hnone : (calculateAmortizationSchedule P rate (t : ℚ) s).findIdx?
      (fun r => decide (dateKey u.date ≤ dateKey r.date)) = none :=
    List.findIdx?_eq_none_iff.mpr hall
  have happ : applyUpdate P (t : ℚ) (calculateAmortizationSchedule P rate (t : ℚ) s) u
      = calculateAmortizationSchedule P rate (t : ℚ) s := by
    unfold applyUpdate
    rw [hnone]
  unfold recalculateScheduleWithUpdates
  rw [if_neg (by simp)]
  simp only [List.insertionSort, List.orderedInsert, List.foldl]
  rw [happ]
  exact (generator_sorted P rate (t : ℚ) s hd1 hd31).insertionSort_eq

/-- C7 witness: a one-year schedule from 2024-01-01 with an update dated
2025-06-01, after the last payment of 2024-12-01. -/
theorem claim_C7_witness :
    recalculateScheduleWithUpdates (calculateAmortizationSchedule 1200 0 ((1 : Nat) : ℚ)
        ⟨2024, 0, 1⟩) [⟨1, 50, 5, ⟨2025, 5, 1⟩, UpdateType.retainPayment⟩] 0 1200
        ((1 : Nat) : ℚ)
      = calculateAmortizationSchedule 1200 0 ((1 : Nat) : ℚ) ⟨2024, 0, 1⟩ :=
  claim_C7 1200 0 1 ⟨2024, 0, 1⟩ ⟨1, 50, 5, ⟨2025, 5, 1⟩, UpdateType.retainPayment⟩ 0
    (by decide) (by decide) (by decide) (by decide)

/-! Claim C9: the unsolvable retain-payment fallback. -/

/-- C9 counterexample: after marchUpdate the current schedule holds 13
records; juneRateUpdate (whose retained payment 100 cannot cover the
interest 325) falls back to 13 - 6 - 1 = 6 remaining months, visible as
six forward records numbered 8 through 13, not to
originalMonths - pivotIndex - 1 = 12 - 6 - 1 = 5 as the claim states. -/
theorem claim_C9_counterexample :
    (applyUpdate 1200 1 smallBase marchUpdate).length = 13 ∧
    (applyUpdate 1200 1 smallBase marchUpdate).findIdx?
      (fun r => decide (dateKey juneRateUpdate.date ≤ dateKey r.date)) = some 6 ∧
    (recalculateScheduleWithUpdates smallBase [marchUpdate, juneRateUpdate] 0 1200 1).countP
      (fun r => decide (8 ≤ r.month.getD 0)) = 6 ∧
    (recalculateScheduleWithUpdates smallBase [marchUpdate, juneRateUpdate] 0 1200 1).filterMap
      (fun r => r.month) = [1, 2, 3, 4, 5, 7, 8, 9, 10, 11, 12, 13] ∧
    (6 : Int) ≠ 12 - 6 - 1 := by
  refine ⟨by decide, by decide, by decide, by decide, by decide⟩

/-- C9 amended: when the retained payment cannot cover the accrued
interest (payment ≤ balance times monthly rate) or the closed-form
month-count argument is out of domain (numerator at least 1), the months
solver returns no finite count and the plan falls back to the record
count of the current (pre-truncation) schedule minus the pivot index
minus one, recomputing the payment over that fallback term; this equals
originalMonths - pivotIndex - 1 only while the current schedule is the
untouched base schedule. The recalculation never throws (it is a total
function) and the forward loop emits at most its remaining month count
of records, so it never loops unboundedly. -/
theorem claim_C9_amended :
    (∀ (bal rate payment : ℚ) (len idx : Nat),
      rate / 12 / 100 ≠ 0 →
      (payment ≤ bal * (rate / 12 / 100) ∨ 1 ≤ bal * (rate / 12 / 100) / payment) →
      retainPaymentPlan bal rate payment len idx =
        (calculateMonthlyPayment bal rate
          ((((len : Int) - (idx : Int) - 1 : Int) : ℚ) / 12),
          (len : Int) - (idx : Int) - 1)) ∧
    (∀ (pay r : ℚ) (d : SimpleDate) (k fuel m : Nat) (bal : ℚ),
      (forwardLoop pay r d k fuel m bal).length ≤ fuel) := by
  constructor
  · intro bal rate payment len idx hr hguard
    have hnone : calculateRemainingMonths bal rate payment = none := by
      unfold calculateRemainingMonths
      rw [if_neg hr]
      by_cases h1 : payment ≤ bal * (rate / 12 / 100)
      · rw [if_pos h1]
      · rw [if_neg h1]
        have h2 : 1 ≤ bal * (rate / 12 / 100) / payment := by
          rcases hguard with h | h
          · exact absurd h h1
          · exact h
        rw [if_pos h2]
    unfold retainPaymentPlan
    rw [hnone]
  · intro pay r d k fuel
    induction fuel with
    | zero => intro m bal; simp [forwardLoop]
    | succ n ih =>
      intro m bal
      by_cases hb : 1/100 < bal
      · simp only [forwardLoop, if_pos hb, List.length_cons]
        have := ih (m + 1) (max 0 (bal - min (pay - bal * r) bal))
        omega
      · simp only [forwardLoop, if_neg hb, List.length_nil]
        omega

/-- C9 amended witness at the concrete values of the counterexample
scenario: balance 850, rate 600, payment 100, schedule length 13, pivot
index 6. -/
theorem claim_C9_amended_witness :
    retainPaymentPlan 850 600 100 13 6 =
      (calculateMonthlyPayment 850 600 ((((13 : Int) - (6 : Int) - 1 : Int) : ℚ) / 12),
        (13 : Int) - (6 : Int) - 1) ∧
    (forwardLoop 100 (1/2) ⟨2024, 6, 1⟩ 8 6 0 850).length ≤ 6 :=
  ⟨claim_C9_amended.1 850 600 100 13 6 (by norm_num) (Or.inl (by norm_num)),
    claim_C9_amended.2 100 (1/2) ⟨2024, 6, 1⟩ 8 6 0 850⟩

/-! Claim C10: invariants of the forward regeneration loop. -/

/-- C10: every record emitted by the forward loop of recalculate is
computed from the balance b entering its iteration: the (raw) principal
is min of the nominal principal and b, so it never exceeds b, the
payment recorded is exactly interest plus that principal, and when the
nominal principal would overdraw the balance (b < pay - b * r) the
recorded payment b + b * r is strictly below the nominal monthly payment
pay. Concretely, a forward run at rate 0, payment 100 and balance 850
ends with a final reduced payment of 50, so forward-loop payments are
not all equal to the computed monthly payment. -/
theorem claim_C10 :
    (∀ (pay r : ℚ) (d : SimpleDate) (k fuel m : Nat) (bal : ℚ),
      ∀ rec ∈ forwardLoop pay r d k fuel m bal,
        ∃ b : ℚ, 1/100 < b ∧
          min (pay - b * r) b ≤ b ∧
          rec.payment = round2 (min (pay - b * r) b + b * r) ∧
          rec.interest = round2 (b * r) ∧
          rec.principal = round2 (min (pay - b * r) b) ∧
          (b < pay - b * r → min (pay - b * r) b + b * r < pay)) ∧
    (forwardLoop 100 0 ⟨2024, 3, 1⟩ 4 9 0 850).map (fun rec => rec.payment)
      = [100, 100, 100, 100, 100, 100, 100, 100, 50] := by
  constructor
  · intro pay r d k fuel
    induction fuel with
    | zero =>
      intro m bal rec hrec
      simp [forwardLoop] at hrec
    | succ n ih =>
      intro m bal rec hrec
      by_cases hb : 1/100 < bal
      · simp only [forwardLoop, if_pos hb, List.mem_cons] at hrec
        rcases hrec with hrec | hrec
        · refine ⟨bal, hb, min_le_right _ _, ?_, ?_, ?_, ?_⟩
          · rw [hrec]
          · rw [hrec]
          · rw [hrec]
          · intro hover
            have hmin : min (pay - bal * r) bal = bal := min_eq_right (le_of_lt hover)
            rw [hmin]
            linarith
        · exact ih (m + 1) (max 0 (bal - min (pay - bal * r) bal)) rec hrec
      · simp only [forwardLoop, if_neg hb] at hrec
        exact absurd hrec (List.not_mem_nil rec)
  · decide

/-- C10 witness: the final record of the concrete forward run (entering
balance 50) satisfies the invariant through the theorem. -/
theorem claim_C10_witness :
    ∃ b : ℚ, 1/100 < b ∧
      min (100 - b * 0) b ≤ b ∧
      ((forwardLoop 100 0 ⟨2024, 3, 1⟩ 4 9 0 850).getD 8 dummyRecord).payment
        = round2 (min (100 - b * 0) b + b * 0) ∧
      ((forwardLoop 100 0 ⟨2024, 3, 1⟩ 4 9 0 850).getD 8 dummyRecord).interest
        = round2 (b * 0) ∧
      ((forwardLoop 100 0 ⟨2024, 3, 1⟩ 4 9 0 850).getD 8 dummyRecord).principal
        = round2 (min (100 - b * 0) b) ∧
      (b < 100 - b * 0 → min (100 - b * 0) b + b * 0 < 100) :=
  claim_C10.1 100 0 ⟨2024, 3, 1⟩ 4 9 0 850
    ((forwardLoop 100 0 ⟨2024, 3, 1⟩ 4 9 0 850).getD 8 dummyRecord) (by decide)

/-! Claim C8: balance monotonicity and non-negativity. -/

theorem calculateMonthlyPayment_zero_rate (P rate : ℚ) (t : Nat)
    (hr : rate / 12 / 100 = 0) :
    calculateMonthlyPayment P rate (t : ℚ) = P / ((t * 12 : Nat) : ℚ) := by
  unfold calculateMonthlyPayment
  rw [if_pos hr]
  push_cast
  ring_nf

theorem calculateMonthlyPayment_pos_rate (P rate : ℚ) (t : Nat)
    (hr : ¬ rate / 12 / 100 = 0) :
    calculateMonthlyPayment P rate (t : ℚ)
      = P * ((rate / 12 / 100) * (1 + rate / 12 / 100) ^ (t * 12)) /
          ((1 + rate / 12 / 100) ^ (t * 12) - 1) := by
  unfold calculateMonthlyPayment
  rw [if_neg hr, floor_natMul12]

theorem rawBalance_succ_nonneg (pay r bal : ℚ) (n : Nat) :
    0 ≤ rawBalance pay r bal (n + 1) :=
  le_max_left 0 _

theorem generator_rawBalance_antitone (P rate : ℚ) (t : Nat) (hP : 0 ≤ P)
    (hrate : 0 ≤ rate) (ht : 0 < t) :
    ∀ n : Nat, n + 1 ≤ t * 12 →
      rawBalance (calculateMonthlyPayment P rate (t : ℚ)) (rate / 12 / 100) P (n + 1)
        ≤ rawBalance (calculateMonthlyPayment P rate (t : ℚ)) (rate / 12 / 100) P n := by
  have hN : 0 < t * 12 := by omega
  intro n hn
  by_cases hr : rate / 12 / 100 = 0
  · rw [calculateMonthlyPayment_zero_rate P rate t hr, hr]
    rw [rawBalance_closed_zero P (t * 12) hP hN (n + 1) hn,
      rawBalance_closed_zero P (t * 12) hP hN n (by omega)]
    have hpay : 0 ≤ P / ((t * 12 : Nat) : ℚ) := by
      apply div_nonneg hP
      positivity
    have hcast : ((n + 1 : Nat) : ℚ) = (n : ℚ) + 1 := by push_cast; ring
    rw [hcast]
    nlinarith
  · have hrpos : 0 < rate / 12 / 100 := by
      rcases lt_or_eq_of_le (show (0:ℚ) ≤ rate / 12 / 100 by positivity) with h | h
      · exact h
      · exact absurd h.symm hr
    have hf1 : (1 : ℚ) ≤ 1 + rate / 12 / 100 := by linarith
    have hD : (0 : ℚ) < (1 + rate / 12 / 100) ^ (t * 12) - 1 := by
      have := pow_big_of_pos hrpos hN
      linarith
    rw [calculateMonthlyPayment_pos_rate P rate t hr]
    rw [rawBalance_closed_pos P (rate / 12 / 100) (t * 12) hP hrpos hN (n + 1) hn,
      rawBalance_closed_pos P (rate / 12 / 100) (t * 12) hP hrpos hN n (by omega)]
    have hpow : (1 + rate / 12 / 100) ^ n ≤ (1 + rate / 12 / 100) ^ (n + 1) :=
      pow_le_pow_right₀ hf1 (by omega)
    have hnum : P * ((1 + rate / 12 / 100) ^ (t * 12) - (1 + rate / 12 / 100) ^ (n + 1))
        ≤ P * ((1 + rate / 12 / 100) ^ (t * 12) - (1 + rate / 12 / 100) ^ n) :=
      mul_le_mul_of_nonneg_left (by linarith) hP
    exact (div_le_div_right hD).mpr hnum

theorem generator_balances (P rate : ℚ) (t : Nat) (s : SimpleDate) (hP : 0 ≤ P)
    (hrate : 0 ≤ rate) (ht : 0 < t) :
    balanceNonIncreasing (calculateAmortizationSchedule P rate (t : ℚ) s) ∧
    ∀ rec ∈ calculateAmortizationSchedule P rate (t : ℚ) s, 0 ≤ rec.remainingBalance := by
  have hlen : (calculateAmortizationSchedule P rate (t : ℚ) s).length = t * 12 := by
    rw [calculateAmortizationSchedule_length, floor_natMul12]
  constructor
  · rw [balanceNonIncreasing, List.chain'_iff_get]
    intro i hi
    have hi1 : i < (calculateAmortizationSchedule P rate (t : ℚ) s).length := by omega
    have hi2 : i + 1 < (calculateAmortizationSchedule P rate (t : ℚ) s).length := by omega
    have g1 := calculateAmortizationSchedule_get P rate (t : ℚ) s i hi1
    have g2 := calculateAmortizationSchedule_get P rate (t : ℚ) s (i + 1) hi2
    rw [List.get_eq_getElem] at g1 g2
    simp only [List.get_eq_getElem]
    rw [g1, g2]
    exact round2_mono (generator_rawBalance_antitone P rate t hP hrate ht (i + 1)
      (by omega))
  · intro rec hrec
    obtain ⟨⟨i, hi⟩, hxi⟩ := List.mem_iff_get.mp hrec
    have g := calculateAmortizationSchedule_get P rate (t : ℚ) s i hi
    rw [← hxi, g]
    exact round2_nonneg (rawBalance_succ_nonneg _ _ _ i)

theorem forwardLoop_balance_nonneg (pay r : ℚ) (d : SimpleDate) (k : Nat) :
    ∀ (fuel m : Nat) (bal : ℚ), ∀ rec ∈ forwardLoop pay r d k fuel m bal,
      0 ≤ rec.remainingBalance := by
  intro fuel
  induction fuel with
  | zero =>
    intro m bal rec hrec
    simp [forwardLoop] at hrec
  | succ n ih =>
    intro m bal rec hrec
    by_cases hb : 1/100 < bal
    · simp only [forwardLoop, if_pos hb, List.mem_cons] at hrec
      rcases hrec with rfl | hrec
      · exact round2_nonneg (le_max_left 0 _)
      · exact ih (m + 1) _ rec hrec
    · simp only [forwardLoop, if_neg hb] at hrec
      exact absurd hrec (List.not_mem_nil rec)

theorem applyUpdateAt_balance_nonneg (P years : ℚ) (sched : List PaymentSchedule)
    (u : LoanUpdate) (i : Nat)
    (hsched : ∀ rec ∈ sched, 0 ≤ rec.remainingBalance) :
    ∀ rec ∈ applyUpdateAt P years sched u i, 0 ≤ rec.remainingBalance := by
  intro rec hrec
  by_cases hc1 : i < sched.length
  · by_cases hc2 : dateKey (sched.getD i dummyRecord).date ≤ dateKey u.date
    · have hc3 : ¬ dateKey u.date < dateKey (sched.getD i dummyRecord).date :=
        not_lt.mpr hc2
      simp only [applyUpdateAt, if_pos hc1, if_pos hc2, if_neg hc3, List.append_nil,
        List.mem_append, List.mem_singleton] at hrec
      rcases hrec with ((hrec | rfl) | rfl) | hrec
      · exact hsched rec (List.take_subset i sched hrec)
      · exact round2_nonneg (le_max_left 0 _)
      · exact round2_nonneg (le_max_left 0 _)
      · exact forwardLoop_balance_nonneg _ _ _ _ _ _ _ rec hrec
    · have hc3 : dateKey u.date < dateKey (sched.getD i dummyRecord).date :=
        not_le.mp hc2
      simp only [applyUpdateAt, if_pos hc1, if_neg hc2, if_pos hc3, List.append_nil,
        List.mem_append, List.mem_singleton] at hrec
      rcases hrec with ((hrec | rfl) | rfl) | hrec
      · exact hsched rec (List.take_subset i sched hrec)
      · exact round2_nonneg (le_max_left 0 _)
      · exact round2_nonneg (le_max_left 0 _)
      · exact forwardLoop_balance_nonneg _ _ _ _ _ _ _ rec hrec
  · simp only [applyUpdateAt, if_neg hc1, List.append_nil, List.mem_append,
      List.mem_singleton] at hrec
    rcases hrec with (hrec | rfl) | hrec
    · exact hsched rec (List.take_subset i sched hrec)
    · exact round2_nonneg (le_max_left 0 _)
    · exact forwardLoop_balance_nonneg _ _ _ _ _ _ _ rec hrec

theorem applyUpdate_balance_nonneg (P years : ℚ) (sched : List PaymentSchedule)
    (u : LoanUpdate) (hsched : ∀ rec ∈ sched, 0 ≤ rec.remainingBalance) :
    ∀ rec ∈ applyUpdate P years sched u, 0 ≤ rec.remainingBalance := by
  unfold applyUpdate
  split
  · exact hsched
  · exact applyUpdateAt_balance_nonneg P years sched u _ hsched

theorem foldl_applyUpdate_balance_nonneg (P years : ℚ) :
    ∀ (us : List LoanUpdate) (sch : List PaymentSchedule),
      (∀ rec ∈ sch, 0 ≤ rec.remainingBalance) →
      ∀ rec ∈ us.foldl (fun sched u => applyUpdate P years sched u) sch,
        0 ≤ rec.remainingBalance := by
  intro us
  induction us with
  | nil =>
    intro sch hsch
    exact hsch
  | cons u us ih =>
    intro sch hsch
    exact ih (applyUpdate P years sch u) (applyUpdate_balance_nonneg P years sch u hsch)

/-- C8 counterexample: applying rateJumpUpdate (retained payment 100, new
monthly interest 110) to the small base schedule makes the stored balance
rise from 1100 to 1110 between the first two records, so the balance
sequence of a recalculated schedule is not non-increasing. -/
theorem claim_C8_counterexample :
    0 < rateJumpUpdate.principalPayment ∧
    ((recalculateScheduleWithUpdates smallBase [rateJumpUpdate] 0 1200 1).getD 0
      dummyRecord).remainingBalance = 1100 ∧
    ((recalculateScheduleWithUpdates smallBase [rateJumpUpdate] 0 1200 1).getD 1
      dummyRecord).remainingBalance = 1110 ∧
    ¬ balanceNonIncreasing (recalculateScheduleWithUpdates smallBase [rateJumpUpdate]
      0 1200 1) := by
  refine ⟨by norm_num [rateJumpUpdate], by decide, by decide, ?_⟩
  intro hchain
  rw [balanceNonIncreasing, List.chain'_iff_get] at hchain
  have h0 := hchain 0 (by decide)
  revert h0
  decide

/-- C8 amended: in every schedule returned by the generator under valid
inputs the remaining balances are non-increasing and non-negative; in
every schedule returned by recalculate from a base whose balances are
non-negative, all balances remain non-negative (every stored balance is
the rounded value of an expression floored at 0), but the sequence need
not be non-increasing: an update whose new rate makes the accrued
interest exceed the retained payment makes the balance grow, as the
counterexample shows. -/
theorem claim_C8_amended :
    (∀ (P rate : ℚ) (t : Nat) (s : SimpleDate), 0 ≤ P → 0 ≤ rate → 0 < t →
      balanceNonIncreasing (calculateAmortizationSchedule P rate (t : ℚ) s) ∧
      ∀ rec ∈ calculateAmortizationSchedule P rate (t : ℚ) s,
        0 ≤ rec.remainingBalance) ∧
    (∀ (sched : List PaymentSchedule) (updates : List LoanUpdate)
      (origRate P years : ℚ),
      (∀ rec ∈ sched, 0 ≤ rec.remainingBalance) →
      ∀ rec ∈ recalculateScheduleWithUpdates sched updates origRate P years,
        0 ≤ rec.remainingBalance) := by
  constructor
  · intro P rate t s hP hrate ht
    exact generator_balances P rate t s hP hrate ht
  · intro sched updates origRate P years hsched
    unfold recalculateScheduleWithUpdates
    split
    · exact hsched
    · intro rec hrec
      have hperm := List.perm_insertionSort finalSortLE
        ((List.insertionSort updateDateLE updates).foldl
          (fun sched u => applyUpdate P years sched u) sched)
      exact foldl_applyUpdate_balance_nonneg P years _ sched hsched rec
        (hperm.mem_iff.mp hrec)

/-- C8 amended witness: the zero-rate one-year schedule is non-increasing,
and the recalculated schedule of the counterexample still has a
non-negative balance at the record where it grew. -/
theorem claim_C8_amended_witness :
    balanceNonIncreasing (calculateAmortizationSchedule 1200 0 ((1 : Nat) : ℚ)
      ⟨2024, 0, 1⟩) ∧
    0 ≤ ((recalculateScheduleWithUpdates smallBase [rateJumpUpdate] 0 1200 1).getD 1
      dummyRecord).remainingBalance := by
  constructor
  · exact (claim_C8_amended.1 1200 0 1 ⟨2024, 0, 1⟩ (by norm_num) le_rfl (by norm_num)).1
  · exact claim_C8_amended.2 smallBase [rateJumpUpdate] 0 1200 1 (by decide) _ (by decide)

end Amortization
